import Mathlib

/-!
Shallow embedding of the paraxial optics engine (`sim/js/optics.js`):
the `Ray` and `Lens` data model, ray tracing (`traceRay`), ABCD system-matrix
composition (`calculateSystemMatrix`), cardinal points
(`calculateCardinalPoints`) and image formation (`calculateImage`).
JavaScript numbers are modelled by exact rationals; the JavaScript `Infinity`
sentinel is modelled by the `ExtQ.inf` constructor; `null` results are
modelled by `Option`.
-/

namespace Optics

/-- Numeric tolerance 1e-9 used by `traceRay` when deciding whether a lens is
behind the ray. -/
def tol9 : ℚ := 1 / 1000000000

/-- Numeric tolerance 1e-10 used by the matrix-derived calculations. -/
def tol10 : ℚ := 1 / 10000000000

/-- A JavaScript number that may be the `Infinity` sentinel. -/
inductive ExtQ where
  | fin (q : ℚ)
  | inf
  deriving DecidableEq

/-- Addition of a finite rational on the left of a possibly-infinite value,
as in `F' = H' + EFL`. -/
def ExtQ.addQ (a : ℚ) : ExtQ → ExtQ
  | .fin q => .fin (a + q)
  | .inf => .inf

/-- Subtraction of a finite rational from a possibly-infinite value,
as in `BFL = F' - z_last`. -/
def ExtQ.subQ : ExtQ → ℚ → ExtQ
  | .fin q, a => .fin (q - a)
  | .inf, _ => .inf

/-- The evolving state of a traced ray: axial position `z`, height `y`,
slope `u`, the recorded `path` of `(z, y)` samples, and the `active` flag. -/
structure Ray where
  z : ℚ
  y : ℚ
  u : ℚ
  path : List (ℚ × ℚ)
  active : Bool
  deriving DecidableEq

/-- Construction of a ray (`new Ray(z, y, u)`): the path starts with the
initial `(z, y)` sample and the ray is active. -/
def mkRay (z y u : ℚ) : Ray := ⟨z, y, u, [(z, y)], true⟩

/-- Straight-line propagation to `newZ` (`Ray.propagate`): a no-op on an
inactive ray; otherwise `y += u * (newZ - z)`, `z = newZ`, and the new
`(z, y)` sample is appended to the path. -/
def Ray.propagate (r : Ray) (newZ : ℚ) : Ray :=
  if r.active then
    let y' := r.y + r.u * (newZ - r.z)
    { r with z := newZ, y := y', path := r.path ++ [(newZ, y')] }
  else r

/-- Thin-lens refraction (`Ray.refract`): a no-op on an inactive ray;
otherwise `u -= y / f`. -/
def Ray.refract (r : Ray) (f : ℚ) : Ray :=
  if r.active then { r with u := r.u - r.y / f } else r

/-- Marking a ray inactive (`Ray.stop`). -/
def Ray.stop (r : Ray) : Ray := { r with active := false }

/-- A thin lens: focal length `f`, axial position `z`, aperture half-height
`h`. The opaque random identifier of the JavaScript class plays no role in
any computation and is omitted. -/
structure Lens where
  f : ℚ
  z : ℚ
  h : ℚ
  deriving DecidableEq

/-- Ordering of lenses by axial position, the comparator of `sortLenses`. -/
def lensLe (a b : Lens) : Prop := a.z ≤ b.z

instance : DecidableRel lensLe := fun a b => inferInstanceAs (Decidable (a.z ≤ b.z))

instance : IsTotal Lens lensLe := ⟨fun a b => le_total a.z b.z⟩

instance : IsTrans Lens lensLe := ⟨fun _ _ _ hab hbc => le_trans hab hbc⟩

/-- Sorting the lens list by ascending axial position (`sortLenses`). -/
def sortLenses (ls : List Lens) : List Lens := List.insertionSort lensLe ls

/-- The lens-iteration loop of `traceRay`: each lens is skipped when the ray
is already past it beyond the 1e-9 tolerance; otherwise the ray is propagated
to the lens plane, stopped there when the aperture blocks it (terminating the
loop), and refracted otherwise. -/
def traceLoop (r : Ray) : List Lens → Ray
  | [] => r
  | l :: rest =>
    if r.z > l.z + tol9 then traceLoop r rest
    else
      let r1 := r.propagate l.z
      if |r1.y| > l.h then r1.stop
      else traceLoop (r1.refract l.f) rest

/-- The lenses actually reached (propagated to) by the loop of `traceRay`,
in the order the loop reaches them. -/
def traceVisited (r : Ray) : List Lens → List Lens
  | [] => []
  | l :: rest =>
    if r.z > l.z + tol9 then traceVisited r rest
    else
      let r1 := r.propagate l.z
      if |r1.y| > l.h then [l]
      else l :: traceVisited (r1.refract l.f) rest

/-- The lenses reached by the loop of `traceRay`, each paired with the ray
state propagated to that lens's plane, the state whose height the aperture
check inspects, in the order the loop reaches them. -/
def traceStates (r : Ray) : List Lens → List (Lens × Ray)
  | [] => []
  | l :: rest =>
    if r.z > l.z + tol9 then traceStates r rest
    else
      let r1 := r.propagate l.z
      if |r1.y| > l.h then [(l, r1)]
      else (l, r1) :: traceStates (r1.refract l.f) rest

/-- Tracing a ray through the system (`OpticalSystem.traceRay`): the lens
list is sorted, the loop runs, and a ray still active afterwards is
propagated a further 1000 units past the last lens (or past its own position
when there are no lenses) for visualization. -/
def traceRay (lenses : List Lens) (r : Ray) : Ray :=
  let sorted := sortLenses lenses
  let r' := traceLoop r sorted
  if r'.active then
    r'.propagate (((sorted.getLast?.map Lens.z).getD r'.z) + 1000)
  else r'

/-- An ABCD matrix with entries `(A B; C D)`. -/
structure Matrix2 where
  A : ℚ
  B : ℚ
  C : ℚ
  D : ℚ
  deriving DecidableEq

/-- The identity ABCD matrix. -/
def idMatrix : Matrix2 := ⟨1, 0, 0, 1⟩

/-- In-place left-multiplication by the translation matrix `(1 d; 0 1)`,
exactly the update performed by `calculateSystemMatrix` for the gap between
consecutive lenses. -/
def translateMat (m : Matrix2) (d : ℚ) : Matrix2 :=
  { m with A := m.A + d * m.C, B := m.B + d * m.D }

/-- In-place left-multiplication by the refraction matrix `(1 0; -1/f 1)`,
exactly the update performed by `calculateSystemMatrix` at each lens. -/
def refractMat (m : Matrix2) (f : ℚ) : Matrix2 :=
  let power := -1 / f
  { m with C := power * m.A + m.C, D := power * m.B + m.D }

/-- The body of the `calculateSystemMatrix` loop after the first lens:
each further lens contributes a translation over the gap from the previous
lens followed by its refraction. -/
def sysMatAux (m : Matrix2) (prevZ : ℚ) : List Lens → Matrix2
  | [] => m
  | l :: rest => sysMatAux (refractMat (translateMat m (l.z - prevZ)) l.f) l.z rest

/-- The ABCD matrix of the system from the first to the last lens plane
(`calculateSystemMatrix`); `none` when the lens list is empty. -/
def calculateSystemMatrix : List Lens → Option Matrix2
  | [] => none
  | l :: rest => some (sysMatAux (refractMat idMatrix l.f) l.z rest)

/-- The cardinal-point summary returned by `calculateCardinalPoints`. -/
structure CardinalPoints where
  efl : ExtQ
  bfl : ExtQ
  H : ℚ
  H' : ℚ
  F' : ExtQ
  deriving DecidableEq

/-- Cardinal points of the system (`calculateCardinalPoints`); `none` when
the lens list is empty. -/
def calculateCardinalPoints (lenses : List Lens) : Option CardinalPoints :=
  match lenses with
  | [] => none
  | l :: rest =>
    match calculateSystemMatrix (l :: rest) with
    | none => none
    | some m =>
      let power := -m.C
      let efl : ExtQ := if |power| < tol10 then .inf else .fin (1 / power)
      let firstLensZ := l.z
      let lastLensZ := ((l :: rest).getLast?.getD l).z
      let dH := if |m.C| < tol10 then 0 else (m.D - 1) / m.C
      let H := firstLensZ + dH
      let dH' := if |m.C| < tol10 then 0 else (1 - m.A) / m.C
      let H' := lastLensZ + dH'
      let F' := ExtQ.addQ H' efl
      let bfl := ExtQ.subQ F' lastLensZ
      some ⟨efl, bfl, H, H', F'⟩

/-- The image description returned by `calculateImage`. -/
structure ImageResult where
  z : ExtQ
  mag : ExtQ
  isVirtual : Bool
  deriving DecidableEq

/-- Image position and magnification for an object at `objectZ`
(`calculateImage`); `none` when the lens list is empty, the infinite result
when the conjugate denominator is below the 1e-10 tolerance. -/
def calculateImage (lenses : List Lens) (objectZ : ℚ) : Option ImageResult :=
  match lenses with
  | [] => none
  | l :: rest =>
    match calculateSystemMatrix (l :: rest) with
    | none => none
    | some m =>
      let firstLensZ := l.z
      let lastLensZ := ((l :: rest).getLast?.getD l).z
      let d_o := firstLensZ - objectZ
      let num := m.A * d_o + m.B
      let den := m.C * d_o + m.D
      if |den| < tol10 then some ⟨.inf, .inf, false⟩
      else
        let d_i := -num / den
        some ⟨.fin (lastLensZ + d_i), .fin (m.A + d_i * m.C), decide (d_i < 0)⟩

/-- Multiplication of ABCD matrices, used to state the specified composition
of element matrices. -/
def mul2 (m n : Matrix2) : Matrix2 :=
  ⟨m.A * n.A + m.B * n.C, m.A * n.B + m.B * n.D,
   m.C * n.A + m.D * n.C, m.C * n.B + m.D * n.D⟩

/-- The refraction matrix `(1 0; -1/f 1)` of a thin lens. -/
def refrM (f : ℚ) : Matrix2 := ⟨1, 0, -1 / f, 1⟩

/-- The translation matrix `(1 d; 0 1)` over an axial gap `d`. -/
def translM (d : ℚ) : Matrix2 := ⟨1, d, 0, 1⟩

/-- Element matrices contributed by the lenses after the first one, in the
order they are encountered: a translation over the gap from the previous
lens, then the lens's refraction. -/
def specElemsAfter (prevZ : ℚ) : List Lens → List Matrix2
  | [] => []
  | l :: rest => translM (l.z - prevZ) :: refrM l.f :: specElemsAfter l.z rest

/-- Element matrices of the whole system in encounter order: the first
lens's refraction (no translation before it), then gaps and refractions;
no translation after the last lens. -/
def specElems : List Lens → List Matrix2
  | [] => []
  | l :: rest => refrM l.f :: specElemsAfter l.z rest

/-- Modelled from the spec wording of §4.3: the system matrix obtained by
left-multiplying the running product by each element matrix as it is
encountered, starting from the identity. -/
def specSystemMatrix (ls : List Lens) : Matrix2 :=
  (specElems ls).foldl (fun acc m => mul2 m acc) idMatrix

/-- Determinant of an ABCD matrix. -/
def det2 (m : Matrix2) : ℚ := m.A * m.D - m.B * m.C

/-- Monotone non-decrease of the `z` coordinates along a recorded path. -/
def zNonDecr : List (ℚ × ℚ) → Bool
  | [] => true
  | [_] => true
  | p :: q :: rest => decide (p.1 ≤ q.1) && zNonDecr (q :: rest)

/-- The path bookkeeping invariant of a ray: the path is non-empty and its
last sample is the ray's current `(z, y)`. -/
def goodRay (r : Ray) : Prop :=
  r.path ≠ [] ∧ r.path.getLast? = some (r.z, r.y)

/-- A mutating call on a ray: `propagate(targetZ)` or `refract(f)`. -/
inductive RayOp where
  | prop (targetZ : ℚ)
  | refr (f : ℚ)
  deriving DecidableEq

/-- Sequential application of a list of mutating calls to a ray. -/
def applyOps (r : Ray) : List RayOp → Ray
  | [] => r
  | .prop z :: ops => applyOps (r.propagate z) ops
  | .refr f :: ops => applyOps (r.refract f) ops

theorem Ray.propagate_of_inactive {r : Ray} (h : r.active = false) (w : ℚ) :
    r.propagate w = r := by
  simp [Ray.propagate, h]

theorem Ray.refract_of_inactive {r : Ray} (h : r.active = false) (f : ℚ) :
    r.refract f = r := by
  simp [Ray.refract, h]

theorem Ray.propagate_active (r : Ray) (w : ℚ) : (r.propagate w).active = r.active := by
  by_cases h : r.active <;> simp [Ray.propagate, h]

theorem Ray.refract_active (r : Ray) (f : ℚ) : (r.refract f).active = r.active := by
  by_cases h : r.active <;> simp [Ray.refract, h]

theorem Ray.refract_z (r : Ray) (f : ℚ) : (r.refract f).z = r.z := by
  by_cases h : r.active <;> simp [Ray.refract, h]

theorem Ray.refract_y (r : Ray) (f : ℚ) : (r.refract f).y = r.y := by
  by_cases h : r.active <;> simp [Ray.refract, h]

theorem Ray.refract_path (r : Ray) (f : ℚ) : (r.refract f).path = r.path := by
  by_cases h : r.active <;> simp [Ray.refract, h]

theorem Ray.propagate_of_active {r : Ray} (h : r.active = true) (w : ℚ) :
    r.propagate w =
      { r with z := w, y := r.y + r.u * (w - r.z),
               path := r.path ++ [(w, r.y + r.u * (w - r.z))] } := by
  simp [Ray.propagate, h]

theorem tol9_pos : 0 < tol9 := by norm_num [tol9]

theorem tol10_pos : 0 < tol10 := by norm_num [tol10]

theorem goodRay_propagate {r : Ray} (hg : goodRay r) (w : ℚ) : goodRay (r.propagate w) := by
  by_cases h : r.active
  · rw [Ray.propagate_of_active h]
    exact ⟨by simp, by simp [List.getLast?_concat]⟩
  · rw [Ray.propagate_of_inactive (by simpa using h)]
    exact hg

theorem goodRay_refract {r : Ray} (hg : goodRay r) (f : ℚ) : goodRay (r.refract f) := by
  by_cases h : r.active <;> simp_all [Ray.refract, goodRay]

theorem goodRay_stop {r : Ray} (hg : goodRay r) : goodRay r.stop := by
  simpa [Ray.stop, goodRay] using hg

theorem goodRay_mkRay (z y u : ℚ) : goodRay (mkRay z y u) := by
  simp [mkRay, goodRay]

theorem zNonDecr_concat :
    ∀ (p : List (ℚ × ℚ)) (a : ℚ × ℚ) (c d : ℚ), zNonDecr p = true →
      p.getLast? = some a → a.1 ≤ c → zNonDecr (p ++ [(c, d)]) = true
  | [], _, _, _, _, hlast, _ => by simp at hlast
  | [x], a, c, d, _, hlast, hle => by
    simp at hlast
    subst hlast
    simpa [zNonDecr] using hle
  | x :: y :: p, a, c, d, hnd, hlast, hle => by
    have h1 : zNonDecr (x :: y :: p) = (decide (x.1 ≤ y.1) && zNonDecr (y :: p)) := rfl
    rw [h1, Bool.and_eq_true] at hnd
    have h2 : (x :: y :: p).getLast? = (y :: p).getLast? := List.getLast?_cons_cons
    rw [h2] at hlast
    have ih := zNonDecr_concat (y :: p) a c d hnd.2 hlast hle
    show (decide (x.1 ≤ y.1) && zNonDecr ((y :: p) ++ [(c, d)])) = true
    rw [Bool.and_eq_true]
    exact ⟨hnd.1, ih⟩

theorem zNonDecr_mkRay (z y u : ℚ) : zNonDecr (mkRay z y u).path = true := rfl

/-- Among a list of lenses sorted by position, every member's position is at
most the last member's position. -/
theorem mem_z_le_getLast :
    ∀ (ls : List Lens) (l m : Lens), List.Pairwise lensLe ls → l ∈ ls →
      ls.getLast? = some m → l.z ≤ m.z
  | [], _, _, _, hmem, _ => by simp at hmem
  | [a], l, m, _, hmem, hlast => by
    simp at hmem hlast
    subst hmem; subst hlast; exact le_refl _
  | a :: b :: ls, l, m, hp, hmem, hlast => by
    rw [List.getLast?_cons_cons] at hlast
    rcases List.mem_cons.mp hmem with h | h
    · subst h
      have hm : m ∈ b :: ls := List.mem_of_mem_getLast? hlast
      exact (List.pairwise_cons.mp hp).1 m hm
    · exact mem_z_le_getLast (b :: ls) l m (List.pairwise_cons.mp hp).2 h hlast

theorem sortLenses_pairwise (ls : List Lens) : List.Pairwise lensLe (sortLenses ls) :=
  List.sorted_insertionSort lensLe ls

theorem sortLenses_perm (ls : List Lens) : List.Perm (sortLenses ls) ls :=
  List.perm_insertionSort lensLe ls

theorem refractMat_eq_mul2 (m : Matrix2) (f : ℚ) : refractMat m f = mul2 (refrM f) m := by
  cases m
  simp only [refractMat, mul2, refrM, Matrix2.mk.injEq]
  refine ⟨by ring, by ring, by ring, by ring⟩

theorem translateMat_eq_mul2 (m : Matrix2) (d : ℚ) : translateMat m d = mul2 (translM d) m := by
  cases m
  simp only [translateMat, mul2, translM, Matrix2.mk.injEq]
  refine ⟨by ring, by ring, by ring, by ring⟩

theorem sysMatAux_eq_foldl :
    ∀ (ls : List Lens) (m : Matrix2) (prevZ : ℚ),
      sysMatAux m prevZ ls = (specElemsAfter prevZ ls).foldl (fun acc mm => mul2 mm acc) m
  | [], _, _ => rfl
  | l :: rest, m, prevZ => by
    show sysMatAux (refractMat (translateMat m (l.z - prevZ)) l.f) l.z rest =
      (specElemsAfter l.z rest).foldl (fun acc mm => mul2 mm acc)
        (mul2 (refrM l.f) (mul2 (translM (l.z - prevZ)) m))
    rw [← translateMat_eq_mul2, ← refractMat_eq_mul2]
    exact sysMatAux_eq_foldl rest _ l.z

theorem det2_translateMat (m : Matrix2) (d : ℚ) : det2 (translateMat m d) = det2 m := by
  simp only [det2, translateMat]; ring

theorem det2_refractMat (m : Matrix2) (f : ℚ) : det2 (refractMat m f) = det2 m := by
  simp only [det2, refractMat]; ring

theorem det2_sysMatAux :
    ∀ (ls : List Lens) (m : Matrix2) (prevZ : ℚ), det2 (sysMatAux m prevZ ls) = det2 m
  | [], _, _ => rfl
  | l :: rest, m, prevZ => by
    show det2 (sysMatAux (refractMat (translateMat m (l.z - prevZ)) l.f) l.z rest) = det2 m
    rw [det2_sysMatAux rest _ l.z, det2_refractMat, det2_translateMat]

/-- The determinant of the computed system matrix is always 1. -/
theorem det2_calculateSystemMatrix {ls : List Lens} {m : Matrix2}
    (h : calculateSystemMatrix ls = some m) : det2 m = 1 := by
  match ls with
  | [] => simp [calculateSystemMatrix] at h
  | l :: rest =>
    simp only [calculateSystemMatrix, Option.some.injEq] at h
    rw [← h, det2_sysMatAux, det2_refractMat]
    norm_num [det2, idMatrix]


theorem traceStates_mem_lens :
    ∀ (ls : List Lens) (r : Ray) (l : Lens) (s : Ray),
      (l, s) ∈ traceStates r ls → l ∈ ls
  | [], _, _, _, hmem => by simp [traceStates] at hmem
  | l' :: rest, r, l, s, hmem => by
    by_cases hc : r.z > l'.z + tol9
    · rw [show traceStates r (l' :: rest) = traceStates r rest by
        simp only [traceStates, if_pos hc]] at hmem
      exact List.mem_cons_of_mem _ (traceStates_mem_lens rest r l s hmem)
    · by_cases hap : |(r.propagate l'.z).y| > l'.h
      · rw [show traceStates r (l' :: rest) = [(l', r.propagate l'.z)] by
          simp only [traceStates, if_neg hc, if_pos hap]] at hmem
        rcases List.mem_singleton.mp hmem with h
        rw [Prod.mk.injEq] at h
        rw [h.1]
        exact List.mem_cons_self _ _
      · rw [show traceStates r (l' :: rest) =
            (l', r.propagate l'.z) :: traceStates ((r.propagate l'.z).refract l'.f) rest by
          simp only [traceStates, if_neg hc, if_neg hap]] at hmem
        rcases List.mem_cons.mp hmem with h | h
        · rw [Prod.mk.injEq] at h
          rw [h.1]
          exact List.mem_cons_self _ _
        · exact List.mem_cons_of_mem _ (traceStates_mem_lens rest _ l s h)

/-- The lens components of `traceStates` are exactly the participating
lenses recorded by `traceVisited`. -/
theorem traceVisited_eq_map_traceStates :
    ∀ (ls : List Lens) (r : Ray), traceVisited r ls = (traceStates r ls).map Prod.fst
  | [], _ => rfl
  | l :: rest, r => by
    by_cases hc : r.z > l.z + tol9
    · simp only [traceVisited, traceStates, if_pos hc]
      exact traceVisited_eq_map_traceStates rest r
    · by_cases hap : |(r.propagate l.z).y| > l.h
      · simp only [traceVisited, traceStates, if_neg hc, if_pos hap, List.map_cons,
          List.map_nil]
      · simp only [traceVisited, traceStates, if_neg hc, if_neg hap, List.map_cons]
        rw [traceVisited_eq_map_traceStates rest _]

theorem traceLoop_blocked_of_exceed :
    ∀ (ls : List Lens) (r : Ray), r.active = true →
      ∀ l s, (l, s) ∈ traceStates r ls → |s.y| > l.h →
        traceLoop r ls = s.stop ∧ s.z = l.z ∧
          s.path.getLast? = some (l.z, s.y)
  | [], _, _, _, _, hmem, _ => by simp [traceStates] at hmem
  | l' :: rest, r, ha, l, s, hmem, hexceed => by
    by_cases hc : r.z > l'.z + tol9
    · rw [show traceStates r (l' :: rest) = traceStates r rest by
        simp only [traceStates, if_pos hc]] at hmem
      rw [show traceLoop r (l' :: rest) = traceLoop r rest by
        simp only [traceLoop, if_pos hc]]
      exact traceLoop_blocked_of_exceed rest r ha l s hmem hexceed
    · by_cases hap : |(r.propagate l'.z).y| > l'.h
      · rw [show traceStates r (l' :: rest) = [(l', r.propagate l'.z)] by
          simp only [traceStates, if_neg hc, if_pos hap]] at hmem
        rcases List.mem_singleton.mp hmem with h
        rw [Prod.mk.injEq] at h
        obtain ⟨hl, hs⟩ := h
        subst hl
        subst hs
        rw [show traceLoop r (l :: rest) = (r.propagate l.z).stop by
          simp only [traceLoop, if_neg hc, if_pos hap]]
        refine ⟨rfl, ?_, ?_⟩
        · rw [Ray.propagate_of_active ha]
        · rw [Ray.propagate_of_active ha]
          exact List.getLast?_concat _
      · rw [show traceStates r (l' :: rest) =
            (l', r.propagate l'.z) :: traceStates ((r.propagate l'.z).refract l'.f) rest by
          simp only [traceStates, if_neg hc, if_neg hap]] at hmem
        rw [show traceLoop r (l' :: rest) = traceLoop ((r.propagate l'.z).refract l'.f) rest by
          simp only [traceLoop, if_neg hc, if_neg hap]]
        rcases List.mem_cons.mp hmem with h | h
        · rw [Prod.mk.injEq] at h
          obtain ⟨hl, hs⟩ := h
          subst hl
          subst hs
          exact absurd hexceed hap
        · have ha2 : ((r.propagate l'.z).refract l'.f).active = true := by
            rw [Ray.refract_active, Ray.propagate_active]
            exact ha
          exact traceLoop_blocked_of_exceed rest _ ha2 l s h hexceed

/-- C3: if during `traceRay` the ray, propagated to the plane of one of the
participating lenses, has height exceeding that lens's aperture half-height,
then after `traceRay` the ray is inactive, its position is that blocking
lens's plane, the last recorded point of its path is exactly at that plane,
and the traced ray is precisely the propagated ray stopped there, so no
further points were appended and the post-trace visualization extension was
not applied. -/
theorem traceRay_blocked_at_lens_plane (lenses : List Lens) (r : Ray)
    (ha : r.active = true) (l : Lens) (s : Ray)
    (hmem : (l, s) ∈ traceStates r (sortLenses lenses)) (hexceed : |s.y| > l.h) :
    (traceRay lenses r).active = false ∧ l ∈ lenses ∧
      (traceRay lenses r).z = l.z ∧
      (traceRay lenses r).path.getLast? = some (l.z, (traceRay lenses r).y) ∧
      traceRay lenses r = s.stop := by
  obtain ⟨hloop, hz, hlast⟩ :=
    traceLoop_blocked_of_exceed (sortLenses lenses) r ha l s hmem hexceed
  have hin : (traceLoop r (sortLenses lenses)).active = false := by
    rw [hloop]
    simp [Ray.stop]
  have hray : traceRay lenses r = traceLoop r (sortLenses lenses) := by
    simp only [traceRay, hin]
    simp
  rw [hray, hloop]
  refine ⟨by simp [Ray.stop],
    (sortLenses_perm lenses).subset (traceStates_mem_lens _ _ _ _ hmem),
    by simpa [Ray.stop] using hz, by simpa [Ray.stop] using hlast, rfl⟩

/-- Witness for C3: a concrete ray whose propagated height 5 at the lens
plane exceeds the aperture half-height 1, so the trace stops it there. -/
theorem traceRay_blocked_at_lens_plane_witness :
    (traceRay [(⟨100, 10, 1⟩ : Lens)] (mkRay 0 5 0)).active = false ∧
      (⟨100, 10, 1⟩ : Lens) ∈ [(⟨100, 10, 1⟩ : Lens)] ∧
      (traceRay [(⟨100, 10, 1⟩ : Lens)] (mkRay 0 5 0)).z = (⟨100, 10, 1⟩ : Lens).z ∧
      (traceRay [(⟨100, 10, 1⟩ : Lens)] (mkRay 0 5 0)).path.getLast? =
        some ((⟨100, 10, 1⟩ : Lens).z, (traceRay [(⟨100, 10, 1⟩ : Lens)] (mkRay 0 5 0)).y) ∧
      traceRay [(⟨100, 10, 1⟩ : Lens)] (mkRay 0 5 0) =
        (⟨10, 5, 0, [(0, 5), (10, 5)], true⟩ : Ray).stop :=
  traceRay_blocked_at_lens_plane [⟨100, 10, 1⟩] (mkRay 0 5 0) rfl ⟨100, 10, 1⟩
    ⟨10, 5, 0, [(0, 5), (10, 5)], true⟩
    (by norm_num [traceStates, sortLenses, List.insertionSort, List.orderedInsert, lensLe,
      mkRay, Ray.propagate, tol9])
    (by norm_num)

end Optics

namespace Optics

/-- C1: for every non-empty lens list sorted ascending by position, with all
focal lengths non-zero, `calculateSystemMatrix` returns exactly the matrix
obtained by composing, from object side to image side, a refraction matrix
`(1 0; -1/f 1)` at each lens and a translation matrix `(1 d; 0 1)` for each
gap between consecutive lenses, each new element's matrix left-multiplying
the running product, with no translation before the first or after the last
lens. -/
theorem calculateSystemMatrix_eq_specComposition (l : Lens) (rest : List Lens)
    (_hs : List.Pairwise lensLe (l :: rest)) (_hf : ∀ x ∈ l :: rest, x.f ≠ 0) :
    calculateSystemMatrix (l :: rest) = some (specSystemMatrix (l :: rest)) := by
  simp only [calculateSystemMatrix, specSystemMatrix, specElems, List.foldl_cons,
    Option.some.injEq]
  rw [sysMatAux_eq_foldl, ← refractMat_eq_mul2]

/-- Witness for C1 at a concrete two-lens system. -/
theorem calculateSystemMatrix_eq_specComposition_witness :
    List.Pairwise lensLe [⟨100, 0, 50⟩, (⟨-50, 30, 50⟩ : Lens)] ∧
      (∀ x ∈ [⟨100, 0, 50⟩, (⟨-50, 30, 50⟩ : Lens)], x.f ≠ 0) ∧
      calculateSystemMatrix [⟨100, 0, 50⟩, (⟨-50, 30, 50⟩ : Lens)] =
        some (specSystemMatrix [⟨100, 0, 50⟩, (⟨-50, 30, 50⟩ : Lens)]) :=
  ⟨by decide, by decide,
    calculateSystemMatrix_eq_specComposition ⟨100, 0, 50⟩ [⟨-50, 30, 50⟩]
      (by decide) (by decide)⟩

/-- C8: with an empty lens list, `calculateSystemMatrix`,
`calculateCardinalPoints` and `calculateImage` all return the explicit
absent result `none` rather than failing. -/
theorem empty_system_all_none :
    calculateSystemMatrix [] = none ∧ calculateCardinalPoints [] = none ∧
      ∀ objectZ : ℚ, calculateImage [] objectZ = none :=
  ⟨rfl, rfl, fun _ => rfl⟩

/-- C2: for a non-empty lens list with non-zero focal lengths and an object
position whose conjugate denominator `C*d_o + D` is at least the 1e-10
tolerance in absolute value, the magnification returned by `calculateImage`
(computed as `A + d_i*C`) equals `1/(C*d_o + D)`. -/
theorem calculateImage_mag_eq_inv_denominator (l : Lens) (rest : List Lens) (objectZ : ℚ)
    (m : Matrix2) (hm : calculateSystemMatrix (l :: rest) = some m)
    (_hf : ∀ x ∈ l :: rest, x.f ≠ 0)
    (hden : tol10 ≤ |m.C * (l.z - objectZ) + m.D|) :
    ∃ res, calculateImage (l :: rest) objectZ = some res ∧
      res.mag = ExtQ.fin (1 / (m.C * (l.z - objectZ) + m.D)) := by
  have hdet : det2 m = 1 := det2_calculateSystemMatrix hm
  have hnotlt : ¬ |m.C * (l.z - objectZ) + m.D| < tol10 := not_lt.mpr hden
  have hne : m.C * (l.z - objectZ) + m.D ≠ 0 := by
    intro h0
    rw [h0] at hden
    simp at hden
    exact absurd hden (not_le.mpr tol10_pos)
  have himg : calculateImage (l :: rest) objectZ =
      some ⟨ExtQ.fin ((((l :: rest).getLast?.getD l).z) +
              -(m.A * (l.z - objectZ) + m.B) / (m.C * (l.z - objectZ) + m.D)),
            ExtQ.fin (m.A + -(m.A * (l.z - objectZ) + m.B) / (m.C * (l.z - objectZ) + m.D) * m.C),
            decide (-(m.A * (l.z - objectZ) + m.B) / (m.C * (l.z - objectZ) + m.D) < 0)⟩ := by
    simp only [calculateImage, hm, if_neg hnotlt]
  refine ⟨_, himg, ?_⟩
  dsimp only
  have hd : m.A + -(m.A * (l.z - objectZ) + m.B) / (m.C * (l.z - objectZ) + m.D) * m.C =
      1 / (m.C * (l.z - objectZ) + m.D) := by
    field_simp
    simp only [det2] at hdet
    linear_combination hdet
  rw [hd]

/-- Witness for C2 at a concrete two-lens system and object position. -/
theorem calculateImage_mag_eq_inv_denominator_witness :
    ∃ res, calculateImage [⟨100, 0, 50⟩, (⟨-50, 30, 50⟩ : Lens)] (-200) = some res ∧
      res.mag = ExtQ.fin (1 / ((sysMatAux (refractMat idMatrix 100) 0
        [(⟨-50, 30, 50⟩ : Lens)]).C * (0 - (-200)) +
        (sysMatAux (refractMat idMatrix 100) 0 [(⟨-50, 30, 50⟩ : Lens)]).D)) :=
  calculateImage_mag_eq_inv_denominator ⟨100, 0, 50⟩ [⟨-50, 30, 50⟩] (-200) _
    rfl (by decide)
    (by norm_num [sysMatAux, refractMat, translateMat, idMatrix, tol10, abs_of_pos])

/-- C6: for a single lens of non-zero focal length `f` at position `z0` whose
power `1/f` is at least the 1e-10 tolerance in absolute value,
`calculateCardinalPoints` reports an effective focal length equal to `f` and
both principal planes at `z0`. -/
theorem cardinalPoints_single_lens (f z0 h : ℚ) (_hf : f ≠ 0)
    (ht : tol10 ≤ |1 / f|) :
    ∃ c, calculateCardinalPoints [⟨f, z0, h⟩] = some c ∧
      c.efl = ExtQ.fin f ∧ c.H = z0 ∧ c.H' = z0 := by
  have hmat : calculateSystemMatrix [⟨f, z0, h⟩] = some ⟨1, 0, -1 / f, 1⟩ := by
    simp [calculateSystemMatrix, sysMatAux, refractMat, idMatrix]
  have key : (-(-1 / f) : ℚ) = 1 / f := by rw [neg_div, neg_neg]
  have keyC : |(-1 / f : ℚ)| = |1 / f| := by rw [neg_div, abs_neg]
  have hC : ¬ |(-1 / f : ℚ)| < tol10 := by rw [keyC]; exact not_lt.mpr ht
  have ht' : ¬ |(1 / f : ℚ)| < tol10 := not_lt.mpr ht
  simp only [calculateCardinalPoints, hmat, key, if_neg hC, if_neg ht']
  refine ⟨_, rfl, ?_, ?_, ?_⟩
  · dsimp only
    rw [one_div_one_div]
  · dsimp only
    norm_num
  · dsimp only
    simp [List.getLast?]

/-- Witness for C6 at `f = 100`, `z0 = 5`. -/
theorem cardinalPoints_single_lens_witness :
    ∃ c, calculateCardinalPoints [⟨100, 5, 50⟩] = some c ∧
      c.efl = ExtQ.fin 100 ∧ c.H = 5 ∧ c.H' = 5 :=
  cardinalPoints_single_lens 100 5 50 (by norm_num) (by norm_num [tol10, abs_of_pos])

/-- C10: ray construction establishes the invariant that the path is
non-empty with last sample equal to the current `(z, y)`; `propagate` on an
active ray appends exactly the new `(z, y)` sample and preserves the
invariant; `refract` and `stop` append nothing, leave `z` and `y` unchanged
and preserve the invariant; and every operation on an inactive ray leaves
the ray unchanged. -/
theorem ray_path_invariant_preserved :
    (∀ z y u : ℚ, goodRay (mkRay z y u)) ∧
    ∀ r : Ray, goodRay r →
      (∀ w : ℚ, goodRay (r.propagate w) ∧
        (r.active = true →
          (r.propagate w).path = r.path ++ [((r.propagate w).z, (r.propagate w).y)]) ∧
        (r.active = false → r.propagate w = r)) ∧
      (∀ f : ℚ, goodRay (r.refract f) ∧ (r.refract f).path = r.path ∧
        (r.refract f).z = r.z ∧ (r.refract f).y = r.y ∧
        (r.active = false → r.refract f = r)) ∧
      (goodRay r.stop ∧ r.stop.path = r.path ∧ r.stop.z = r.z ∧ r.stop.y = r.y) := by
  refine ⟨goodRay_mkRay, fun r hg => ⟨fun w => ⟨goodRay_propagate hg w, ?_, ?_⟩,
    fun f => ⟨goodRay_refract hg f, Ray.refract_path r f, Ray.refract_z r f,
      Ray.refract_y r f, fun hi => Ray.refract_of_inactive hi f⟩,
    goodRay_stop hg, rfl, rfl, rfl⟩⟩
  · intro ha
    rw [Ray.propagate_of_active ha]
  · intro hi
    exact Ray.propagate_of_inactive hi w

/-- Witness for C10: the invariant instantiated on a freshly constructed ray
and a propagation step. -/
theorem ray_path_invariant_preserved_witness :
    goodRay (mkRay 0 1 2) ∧ goodRay ((mkRay 0 1 2).propagate 5) :=
  ⟨ray_path_invariant_preserved.1 0 1 2,
    ((ray_path_invariant_preserved.2 (mkRay 0 1 2)
      (ray_path_invariant_preserved.1 0 1 2)).1 5).1⟩

/-- C9: once `stop()` has been called on a ray, every subsequent sequence of
`propagate` and `refract` calls, with arbitrary arguments, leaves the ray
completely unchanged. -/
theorem stop_permanent_noop (r : Ray) (ops : List RayOp) :
    applyOps r.stop ops = r.stop := by
  induction ops with
  | nil => rfl
  | cons op ops ih =>
    cases op with
    | prop w =>
      show applyOps (Ray.propagate r.stop w) ops = r.stop
      rw [Ray.propagate_of_inactive rfl]
      exact ih
    | refr f =>
      show applyOps (Ray.refract r.stop f) ops = r.stop
      rw [Ray.refract_of_inactive rfl]
      exact ih


theorem traceLoop_mono :
    ∀ (ls : List Lens) (r : Ray), List.Pairwise lensLe ls → goodRay r →
      zNonDecr r.path = true → (∀ l ∈ ls, r.z ≤ l.z) →
      zNonDecr (traceLoop r ls).path = true ∧ goodRay (traceLoop r ls) ∧
        ((traceLoop r ls).z = r.z ∨ ∃ l ∈ ls, (traceLoop r ls).z = l.z)
  | [], r, _, hg, hnd, _ => ⟨hnd, hg, Or.inl rfl⟩
  | l :: rest, r, hp, hg, hnd, hz => by
    have hc : ¬ r.z > l.z + tol9 := by
      have h1 : r.z ≤ l.z := hz l (List.mem_cons_self l rest)
      have h2 : (0:ℚ) < tol9 := tol9_pos
      push_neg
      linarith
    by_cases hA : r.active = true
    · have hprop := Ray.propagate_of_active hA l.z
      have hg1 : goodRay (r.propagate l.z) := goodRay_propagate hg l.z
      have hnd1 : zNonDecr (r.propagate l.z).path = true := by
        rw [hprop]
        exact zNonDecr_concat r.path (r.z, r.y) l.z _ hnd hg.2
          (hz l (List.mem_cons_self l rest))
      by_cases hap : |(r.propagate l.z).y| > l.h
      · have he : traceLoop r (l :: rest) = (r.propagate l.z).stop := by
          simp only [traceLoop, if_neg hc, if_pos hap]
        rw [he]
        refine ⟨hnd1, goodRay_stop hg1, Or.inr ⟨l, List.mem_cons_self l rest, ?_⟩⟩
        show (r.propagate l.z).z = l.z
        rw [hprop]
      · have he : traceLoop r (l :: rest) = traceLoop ((r.propagate l.z).refract l.f) rest := by
          simp only [traceLoop, if_neg hc, if_neg hap]
        have hz2 : ((r.propagate l.z).refract l.f).z = l.z := by
          rw [Ray.refract_z, hprop]
        have ih := traceLoop_mono rest ((r.propagate l.z).refract l.f)
          (List.pairwise_cons.mp hp).2 (goodRay_refract hg1 l.f)
          (by rw [Ray.refract_path]; exact hnd1)
          (fun l' hl' => by
            rw [hz2]
            exact (List.pairwise_cons.mp hp).1 l' hl')
        rw [he]
        refine ⟨ih.1, ih.2.1, ?_⟩
        rcases ih.2.2 with hcase | ⟨l', hl', hzl'⟩
        · exact Or.inr ⟨l, List.mem_cons_self l rest, by rw [hcase, hz2]⟩
        · exact Or.inr ⟨l', List.mem_cons_of_mem _ hl', hzl'⟩
    · have hA' : r.active = false := by
        cases h : r.active
        · rfl
        · exact absurd h hA
      have hprop : r.propagate l.z = r := Ray.propagate_of_inactive hA' l.z
      by_cases hap : |(r.propagate l.z).y| > l.h
      · have he : traceLoop r (l :: rest) = (r.propagate l.z).stop := by
          simp only [traceLoop, if_neg hc, if_pos hap]
        rw [he, hprop]
        exact ⟨hnd, goodRay_stop hg, Or.inl rfl⟩
      · have he : traceLoop r (l :: rest) = traceLoop ((r.propagate l.z).refract l.f) rest := by
          simp only [traceLoop, if_neg hc, if_neg hap]
        have hre : (r.propagate l.z).refract l.f = r := by
          rw [hprop]
          exact Ray.refract_of_inactive hA' l.f
        rw [he, hre]
        have ih := traceLoop_mono rest r (List.pairwise_cons.mp hp).2 hg hnd
          (fun l' hl' => hz l' (List.mem_cons_of_mem _ hl'))
        refine ⟨ih.1, ih.2.1, ?_⟩
        rcases ih.2.2 with hcase | ⟨l', hl', hzl'⟩
        · exact Or.inl hcase
        · exact Or.inr ⟨l', List.mem_cons_of_mem _ hl', hzl'⟩

/-- C4 (amended): for a freshly constructed ray whose initial axial position
is at or before every lens's position, after `traceRay` the sequence of
z-coordinates in the ray's path is monotonically non-decreasing and the path
is non-empty. -/
theorem traceRay_path_forward (lenses : List Lens) (z y u : ℚ)
    (hz : ∀ l ∈ lenses, z ≤ l.z) :
    zNonDecr (traceRay lenses (mkRay z y u)).path = true ∧
      (traceRay lenses (mkRay z y u)).path ≠ [] := by
  have hz' : ∀ l ∈ sortLenses lenses, (mkRay z y u).z ≤ l.z :=
    fun l hl => hz l ((sortLenses_perm lenses).subset hl)
  obtain ⟨h1, h2, h3⟩ := traceLoop_mono (sortLenses lenses) (mkRay z y u)
    (sortLenses_pairwise lenses) (goodRay_mkRay z y u) (zNonDecr_mkRay z y u) hz'
  by_cases hA : (traceLoop (mkRay z y u) (sortLenses lenses)).active = true
  · have hray : traceRay lenses (mkRay z y u) =
        (traceLoop (mkRay z y u) (sortLenses lenses)).propagate
          ((((sortLenses lenses).getLast?.map Lens.z).getD
            (traceLoop (mkRay z y u) (sortLenses lenses)).z) + 1000) := by
      simp only [traceRay, if_pos hA]
    have hle : (traceLoop (mkRay z y u) (sortLenses lenses)).z ≤
        (((sortLenses lenses).getLast?.map Lens.z).getD
          (traceLoop (mkRay z y u) (sortLenses lenses)).z) + 1000 := by
      cases hgl : (sortLenses lenses).getLast? with
      | none =>
        simp only [hgl, Option.map_none', Option.getD_none]
        linarith
      | some mL =>
        simp only [hgl, Option.map_some', Option.getD_some]
        have hub : (traceLoop (mkRay z y u) (sortLenses lenses)).z ≤ mL.z := by
          rcases h3 with hcase | ⟨l', hl', hzl'⟩
          · rw [hcase]
            exact hz' mL (List.mem_of_mem_getLast? hgl)
          · rw [hzl']
            exact mem_z_le_getLast (sortLenses lenses) l' mL
              (sortLenses_pairwise lenses) hl' hgl
        linarith
    rw [hray, Ray.propagate_of_active hA]
    constructor
    · exact zNonDecr_concat _ _ _ _ h1 h2.2 hle
    · simp
  · have hA' : (traceLoop (mkRay z y u) (sortLenses lenses)).active = false := by
      cases h : (traceLoop (mkRay z y u) (sortLenses lenses)).active
      · rfl
      · exact absurd h hA
    have hray : traceRay lenses (mkRay z y u) =
        traceLoop (mkRay z y u) (sortLenses lenses) := by
      simp only [traceRay, hA']
      simp
    rw [hray]
    exact ⟨h1, h2.1⟩

/-- Witness for C4 at a concrete one-lens system with the ray ahead of it. -/
theorem traceRay_path_forward_witness :
    (∀ l ∈ [(⟨100, 10, 50⟩ : Lens)], (0:ℚ) ≤ l.z) ∧
    (zNonDecr (traceRay [(⟨100, 10, 50⟩ : Lens)] (mkRay 0 0 1)).path = true ∧
      (traceRay [(⟨100, 10, 50⟩ : Lens)] (mkRay 0 0 1)).path ≠ []) :=
  ⟨by decide, traceRay_path_forward [⟨100, 10, 50⟩] 0 0 1 (by decide)⟩

/-- Counterexample to C4 as stated: a freshly constructed ray starting after
the only lens is skipped by the loop, and the visualization extension then
propagates it backwards to `lastLensZ + 1000`, so its recorded path is not
monotonically non-decreasing in `z`. -/
theorem traceRay_path_not_monotone :
    zNonDecr (traceRay [(⟨100, 0, 50⟩ : Lens)] (mkRay 2000 0 0)).path = false := by
  norm_num [traceRay, sortLenses, List.insertionSort, List.orderedInsert, lensLe,
    traceLoop, mkRay, Ray.propagate, Ray.refract, Ray.stop, tol9, zNonDecr]

theorem traceVisited_spec :
    ∀ (ls : List Lens) (r : Ray), List.Pairwise lensLe ls →
      (traceVisited r ls).Sublist ls ∧
      (∀ l ∈ traceVisited r ls, r.z ≤ l.z + tol9) ∧
      ((traceLoop r ls).active = true →
        ∀ l ∈ ls, r.z ≤ l.z + tol9 → l ∈ traceVisited r ls)
  | [], r, _ => ⟨List.Sublist.refl [], by simp [traceVisited], by simp [traceVisited]⟩
  | l :: rest, r, hp => by
    by_cases hc : r.z > l.z + tol9
    · have hv : traceVisited r (l :: rest) = traceVisited r rest := by
        simp only [traceVisited, if_pos hc]
      have hl : traceLoop r (l :: rest) = traceLoop r rest := by
        simp only [traceLoop, if_pos hc]
      have ih := traceVisited_spec rest r (List.pairwise_cons.mp hp).2
      rw [hv, hl]
      refine ⟨ih.1.cons l, ih.2.1, fun hact l' hl' hcond => ?_⟩
      rcases List.mem_cons.mp hl' with h | h
      · subst h
        exact absurd hcond (not_le.mpr hc)
      · exact ih.2.2 hact l' h hcond
    · have hreach : r.z ≤ l.z + tol9 := not_lt.mp hc
      by_cases hap : |(r.propagate l.z).y| > l.h
      · have hv : traceVisited r (l :: rest) = [l] := by
          simp only [traceVisited, if_neg hc, if_pos hap]
        have hl : traceLoop r (l :: rest) = (r.propagate l.z).stop := by
          simp only [traceLoop, if_neg hc, if_pos hap]
        rw [hv, hl]
        refine ⟨(List.nil_sublist rest).cons₂ l, ?_, fun hact => ?_⟩
        · intro l' hl'
          rcases List.mem_singleton.mp hl' with h
          subst h
          exact hreach
        · exact absurd hact (by simp [Ray.stop])
      · have hv : traceVisited r (l :: rest) =
            l :: traceVisited ((r.propagate l.z).refract l.f) rest := by
          simp only [traceVisited, if_neg hc, if_neg hap]
        have hl : traceLoop r (l :: rest) =
            traceLoop ((r.propagate l.z).refract l.f) rest := by
          simp only [traceLoop, if_neg hc, if_neg hap]
        have ih := traceVisited_spec rest ((r.propagate l.z).refract l.f)
          (List.pairwise_cons.mp hp).2
        rw [hv, hl]
        have hz2 : ((r.propagate l.z).refract l.f).z = l.z ∨
            ((r.propagate l.z).refract l.f).z = r.z := by
          rw [Ray.refract_z]
          by_cases hA : r.active = true
          · rw [Ray.propagate_of_active hA]
            exact Or.inl rfl
          · have hA' : r.active = false := by
              cases h : r.active
              · rfl
              · exact absurd h hA
            rw [Ray.propagate_of_inactive hA']
            exact Or.inr rfl
        refine ⟨ih.1.cons₂ l, ?_, fun hact l' hl' hcond => ?_⟩
        · intro l'' hl''
          rcases List.mem_cons.mp hl'' with h | h
          · subst h
            exact hreach
          · have hmem : l'' ∈ rest := ih.1.subset h
            have hle : lensLe l l'' := (List.pairwise_cons.mp hp).1 l'' hmem
            unfold lensLe at hle
            linarith
        · rcases List.mem_cons.mp hl' with h | h
          · subst h
            exact List.mem_cons_self _ _
          · refine List.mem_cons_of_mem _ (ih.2.2 hact l' h ?_)
            rcases hz2 with hz2 | hz2
            · rw [hz2]
              have hle : lensLe l l' := (List.pairwise_cons.mp hp).1 l' h
              unfold lensLe at hle
              have ht := tol9_pos
              linarith
            · rw [hz2]
              exact hcond

/-- C7: in `traceRay`'s loop over the sorted lens list, the lenses actually
reached form a sublist of the sorted list (so they are processed in
ascending order of position), every reached lens satisfies
`r.z ≤ lens.z + 1e-9` (so every lens strictly behind the ray beyond the
tolerance is skipped, while a ray exactly at a lens's plane still reaches
it), and when the ray is not blocked, every lens satisfying that tolerance
condition is reached. -/
theorem traceRay_participation (lenses : List Lens) (r : Ray) :
    (traceVisited r (sortLenses lenses)).Sublist (sortLenses lenses) ∧
    List.Pairwise lensLe (traceVisited r (sortLenses lenses)) ∧
    (∀ l ∈ traceVisited r (sortLenses lenses), r.z ≤ l.z + tol9) ∧
    ((traceLoop r (sortLenses lenses)).active = true →
      ∀ l ∈ sortLenses lenses, r.z ≤ l.z + tol9 →
        l ∈ traceVisited r (sortLenses lenses)) := by
  obtain ⟨h1, h2, h3⟩ := traceVisited_spec (sortLenses lenses) r (sortLenses_pairwise lenses)
  exact ⟨h1, (sortLenses_pairwise lenses).sublist h1, h2, h3⟩

/-- Witness for C7: participation facts instantiated at a concrete system
where the ray starts between the two lenses, exactly at the second lens's
plane. -/
theorem traceRay_participation_witness :
    (traceVisited (mkRay 50 0 0) (sortLenses [⟨100, 0, 10⟩, ⟨100, 50, 10⟩])).Sublist
      (sortLenses [⟨100, 0, 10⟩, ⟨100, 50, 10⟩]) ∧
    List.Pairwise lensLe (traceVisited (mkRay 50 0 0) (sortLenses [⟨100, 0, 10⟩, ⟨100, 50, 10⟩])) ∧
    (∀ l ∈ traceVisited (mkRay 50 0 0) (sortLenses [⟨100, 0, 10⟩, ⟨100, 50, 10⟩]),
      (mkRay 50 0 0).z ≤ l.z + tol9) ∧
    ((traceLoop (mkRay 50 0 0) (sortLenses [⟨100, 0, 10⟩, ⟨100, 50, 10⟩])).active = true →
      ∀ l ∈ sortLenses [⟨100, 0, 10⟩, ⟨100, 50, 10⟩], (mkRay 50 0 0).z ≤ l.z + tol9 →
        l ∈ traceVisited (mkRay 50 0 0) (sortLenses [⟨100, 0, 10⟩, ⟨100, 50, 10⟩])) :=
  traceRay_participation [⟨100, 0, 10⟩, ⟨100, 50, 10⟩] (mkRay 50 0 0)


theorem Ray.propagate_u (r : Ray) (w : ℚ) : (r.propagate w).u = r.u := by
  by_cases h : r.active <;> simp [Ray.propagate, h]

/-- C5 (amended): for a two-lens afocal system, two lenses with non-zero
focal lengths `f1`, `f2` separated by `d = f1 + f2 > 0`, tracing a ray that
starts at or before the first lens and is not blocked by any aperture leaves
the output slope equal to `-(f1/f2)` times the input slope (for matched
lenses, the negated input slope), the angular magnification of the
telescope. -/
theorem traceRay_afocal_slope (f1 f2 z1 h1 h2 z0 y0 u0 : ℚ)
    (hf1 : f1 ≠ 0) (hf2 : f2 ≠ 0) (hd : 0 < f1 + f2) (hz : z0 ≤ z1)
    (ha : (traceRay [⟨f1, z1, h1⟩, ⟨f2, z1 + (f1 + f2), h2⟩] (mkRay z0 y0 u0)).active = true) :
    (traceRay [⟨f1, z1, h1⟩, ⟨f2, z1 + (f1 + f2), h2⟩] (mkRay z0 y0 u0)).u =
      -(f1 / f2) * u0 := by
  have htol := tol9_pos
  have h12 : lensLe (⟨f1, z1, h1⟩ : Lens) ⟨f2, z1 + (f1 + f2), h2⟩ := by
    show z1 ≤ z1 + (f1 + f2)
    linarith
  have hsort : sortLenses [(⟨f1, z1, h1⟩ : Lens), ⟨f2, z1 + (f1 + f2), h2⟩] =
      [⟨f1, z1, h1⟩, ⟨f2, z1 + (f1 + f2), h2⟩] := by
    simp only [sortLenses, List.insertionSort, List.orderedInsert, if_pos h12]
  have hloopact : (traceLoop (mkRay z0 y0 u0)
      (sortLenses [(⟨f1, z1, h1⟩ : Lens), ⟨f2, z1 + (f1 + f2), h2⟩])).active = true := by
    by_contra hcon
    have h' : (traceLoop (mkRay z0 y0 u0)
        (sortLenses [(⟨f1, z1, h1⟩ : Lens), ⟨f2, z1 + (f1 + f2), h2⟩])).active = false := by
      cases h : (traceLoop (mkRay z0 y0 u0)
          (sortLenses [(⟨f1, z1, h1⟩ : Lens), ⟨f2, z1 + (f1 + f2), h2⟩])).active
      · rfl
      · exact absurd h hcon
    have heq : traceRay [(⟨f1, z1, h1⟩ : Lens), ⟨f2, z1 + (f1 + f2), h2⟩] (mkRay z0 y0 u0) =
        traceLoop (mkRay z0 y0 u0)
          (sortLenses [(⟨f1, z1, h1⟩ : Lens), ⟨f2, z1 + (f1 + f2), h2⟩]) := by
      simp only [traceRay, h']
      simp
    rw [heq] at ha
    rw [ha] at h'
    cases h'
  rw [hsort] at hloopact
  have hc1 : ¬ ((mkRay z0 y0 u0).z > (⟨f1, z1, h1⟩ : Lens).z + tol9) := by
    show ¬ (z0 > z1 + tol9)
    push_neg
    linarith
  have hprop1 : (mkRay z0 y0 u0).propagate (⟨f1, z1, h1⟩ : Lens).z =
      ⟨z1, y0 + u0 * (z1 - z0), u0, [(z0, y0), (z1, y0 + u0 * (z1 - z0))], true⟩ := by
    rw [Ray.propagate_of_active rfl]
    simp [mkRay]
  have hstep1 : traceLoop (mkRay z0 y0 u0) [(⟨f1, z1, h1⟩ : Lens), ⟨f2, z1 + (f1 + f2), h2⟩] =
      if |y0 + u0 * (z1 - z0)| > h1 then
        (⟨z1, y0 + u0 * (z1 - z0), u0, [(z0, y0), (z1, y0 + u0 * (z1 - z0))], true⟩ : Ray).stop
      else traceLoop ((⟨z1, y0 + u0 * (z1 - z0), u0,
            [(z0, y0), (z1, y0 + u0 * (z1 - z0))], true⟩ : Ray).refract f1)
          [⟨f2, z1 + (f1 + f2), h2⟩] := by
    simp only [traceLoop, if_neg hc1, hprop1]
  by_cases hb1 : |y0 + u0 * (z1 - z0)| > h1
  · rw [hstep1, if_pos hb1] at hloopact
    simp [Ray.stop] at hloopact
  rw [hstep1, if_neg hb1] at hloopact
  have hrefr1 : (⟨z1, y0 + u0 * (z1 - z0), u0,
      [(z0, y0), (z1, y0 + u0 * (z1 - z0))], true⟩ : Ray).refract f1 =
      ⟨z1, y0 + u0 * (z1 - z0), u0 - (y0 + u0 * (z1 - z0)) / f1,
        [(z0, y0), (z1, y0 + u0 * (z1 - z0))], true⟩ := by
    rw [Ray.refract]
    simp
  rw [hrefr1] at hloopact
  have hc2 : ¬ ((⟨z1, y0 + u0 * (z1 - z0), u0 - (y0 + u0 * (z1 - z0)) / f1,
      [(z0, y0), (z1, y0 + u0 * (z1 - z0))], true⟩ : Ray).z >
        (⟨f2, z1 + (f1 + f2), h2⟩ : Lens).z + tol9) := by
    show ¬ (z1 > z1 + (f1 + f2) + tol9)
    push_neg
    linarith
  have hprop2 : (⟨z1, y0 + u0 * (z1 - z0), u0 - (y0 + u0 * (z1 - z0)) / f1,
      [(z0, y0), (z1, y0 + u0 * (z1 - z0))], true⟩ : Ray).propagate
        (⟨f2, z1 + (f1 + f2), h2⟩ : Lens).z =
      ⟨z1 + (f1 + f2),
        y0 + u0 * (z1 - z0) + (u0 - (y0 + u0 * (z1 - z0)) / f1) * (z1 + (f1 + f2) - z1),
        u0 - (y0 + u0 * (z1 - z0)) / f1,
        [(z0, y0), (z1, y0 + u0 * (z1 - z0)),
          (z1 + (f1 + f2),
            y0 + u0 * (z1 - z0) + (u0 - (y0 + u0 * (z1 - z0)) / f1) * (z1 + (f1 + f2) - z1))],
        true⟩ := by
    rw [Ray.propagate_of_active rfl]
    simp
  have hstep2 : traceLoop (⟨z1, y0 + u0 * (z1 - z0), u0 - (y0 + u0 * (z1 - z0)) / f1,
      [(z0, y0), (z1, y0 + u0 * (z1 - z0))], true⟩ : Ray) [⟨f2, z1 + (f1 + f2), h2⟩] =
      if |y0 + u0 * (z1 - z0) + (u0 - (y0 + u0 * (z1 - z0)) / f1) * (z1 + (f1 + f2) - z1)| > h2
      then (⟨z1 + (f1 + f2),
          y0 + u0 * (z1 - z0) + (u0 - (y0 + u0 * (z1 - z0)) / f1) * (z1 + (f1 + f2) - z1),
          u0 - (y0 + u0 * (z1 - z0)) / f1,
          [(z0, y0), (z1, y0 + u0 * (z1 - z0)),
            (z1 + (f1 + f2),
              y0 + u0 * (z1 - z0) + (u0 - (y0 + u0 * (z1 - z0)) / f1) * (z1 + (f1 + f2) - z1))],
          true⟩ : Ray).stop
      else traceLoop ((⟨z1 + (f1 + f2),
          y0 + u0 * (z1 - z0) + (u0 - (y0 + u0 * (z1 - z0)) / f1) * (z1 + (f1 + f2) - z1),
          u0 - (y0 + u0 * (z1 - z0)) / f1,
          [(z0, y0), (z1, y0 + u0 * (z1 - z0)),
            (z1 + (f1 + f2),
              y0 + u0 * (z1 - z0) + (u0 - (y0 + u0 * (z1 - z0)) / f1) * (z1 + (f1 + f2) - z1))],
          true⟩ : Ray).refract f2) [] := by
    simp only [traceLoop, if_neg hc2, hprop2]
  by_cases hb2 : |y0 + u0 * (z1 - z0) + (u0 - (y0 + u0 * (z1 - z0)) / f1) * (z1 + (f1 + f2) - z1)| > h2
  · rw [hstep2, if_pos hb2] at hloopact
    simp [Ray.stop] at hloopact
  have hrefr2 : (⟨z1 + (f1 + f2),
          y0 + u0 * (z1 - z0) + (u0 - (y0 + u0 * (z1 - z0)) / f1) * (z1 + (f1 + f2) - z1),
          u0 - (y0 + u0 * (z1 - z0)) / f1,
          [(z0, y0), (z1, y0 + u0 * (z1 - z0)),
            (z1 + (f1 + f2),
              y0 + u0 * (z1 - z0) + (u0 - (y0 + u0 * (z1 - z0)) / f1) * (z1 + (f1 + f2) - z1))],
          true⟩ : Ray).refract f2 =
      (⟨z1 + (f1 + f2),
          y0 + u0 * (z1 - z0) + (u0 - (y0 + u0 * (z1 - z0)) / f1) * (z1 + (f1 + f2) - z1),
          u0 - (y0 + u0 * (z1 - z0)) / f1 - (y0 + u0 * (z1 - z0) + (u0 - (y0 + u0 * (z1 - z0)) / f1) * (z1 + (f1 + f2) - z1)) / f2,
          [(z0, y0), (z1, y0 + u0 * (z1 - z0)),
            (z1 + (f1 + f2),
              y0 + u0 * (z1 - z0) + (u0 - (y0 + u0 * (z1 - z0)) / f1) * (z1 + (f1 + f2) - z1))],
          true⟩ : Ray) := by
    rw [Ray.refract]
    simp
  have hloopeq : traceLoop (mkRay z0 y0 u0)
      [(⟨f1, z1, h1⟩ : Lens), ⟨f2, z1 + (f1 + f2), h2⟩] =
      (⟨z1 + (f1 + f2),
          y0 + u0 * (z1 - z0) + (u0 - (y0 + u0 * (z1 - z0)) / f1) * (z1 + (f1 + f2) - z1),
          u0 - (y0 + u0 * (z1 - z0)) / f1 - (y0 + u0 * (z1 - z0) + (u0 - (y0 + u0 * (z1 - z0)) / f1) * (z1 + (f1 + f2) - z1)) / f2,
          [(z0, y0), (z1, y0 + u0 * (z1 - z0)),
            (z1 + (f1 + f2),
              y0 + u0 * (z1 - z0) + (u0 - (y0 + u0 * (z1 - z0)) / f1) * (z1 + (f1 + f2) - z1))],
          true⟩ : Ray) := by
    rw [hstep1, if_neg hb1, hrefr1, hstep2, if_neg hb2, hrefr2]
    rfl
  have hu : (traceRay [(⟨f1, z1, h1⟩ : Lens), ⟨f2, z1 + (f1 + f2), h2⟩]
      (mkRay z0 y0 u0)).u = (⟨z1 + (f1 + f2),
          y0 + u0 * (z1 - z0) + (u0 - (y0 + u0 * (z1 - z0)) / f1) * (z1 + (f1 + f2) - z1),
          u0 - (y0 + u0 * (z1 - z0)) / f1 - (y0 + u0 * (z1 - z0) + (u0 - (y0 + u0 * (z1 - z0)) / f1) * (z1 + (f1 + f2) - z1)) / f2,
          [(z0, y0), (z1, y0 + u0 * (z1 - z0)),
            (z1 + (f1 + f2),
              y0 + u0 * (z1 - z0) + (u0 - (y0 + u0 * (z1 - z0)) / f1) * (z1 + (f1 + f2) - z1))],
          true⟩ : Ray).u := by
    simp only [traceRay, hsort, hloopeq]
    simp [Ray.propagate_u]
  rw [hu]
  show u0 - (y0 + u0 * (z1 - z0)) / f1 - (y0 + u0 * (z1 - z0) + (u0 - (y0 + u0 * (z1 - z0)) / f1) * (z1 + (f1 + f2) - z1)) / f2 = -(f1 / f2) * u0
  field_simp
  ring

/-- Witness for C5 at a matched pair `f1 = f2 = 100` with `d = 200`. -/
theorem traceRay_afocal_slope_witness :
    (traceRay [⟨100, 0, 1000000⟩, (⟨100, 0 + (100 + 100), 1000000⟩ : Lens)]
      (mkRay (-100) 0 1)).u = -(100 / 100) * 1 :=
  traceRay_afocal_slope 100 100 0 1000000 1000000 (-100) 0 1
    (by norm_num) (by norm_num) (by norm_num) (by norm_num)
    (by norm_num [traceRay, sortLenses, List.insertionSort, List.orderedInsert, lensLe,
      traceLoop, mkRay, Ray.propagate, Ray.refract, Ray.stop, tol9])

/-- Counterexample to C5 as stated: through the afocal system of two matched
`f = 100` lenses separated by `d = 200`, an unblocked ray with input slope 1
comes out with slope `-1`, not with its input slope. -/
theorem traceRay_afocal_slope_not_preserved :
    (traceRay [⟨100, 0, 1000000⟩, (⟨100, 200, 1000000⟩ : Lens)] (mkRay (-100) 0 1)).active
        = true ∧
      (traceRay [⟨100, 0, 1000000⟩, (⟨100, 200, 1000000⟩ : Lens)] (mkRay (-100) 0 1)).u ≠
        (mkRay (-100) 0 1).u := by
  norm_num [traceRay, sortLenses, List.insertionSort, List.orderedInsert, lensLe,
    traceLoop, mkRay, Ray.propagate, Ray.refract, Ray.stop, tol9]

end Optics
